import Mathlib

/-!
# fivebin: streaming dictionary and user meanings

A shallow embedding of `dictionary.go` and `user_meanings.go`.

Modelling decisions, fixed once for the whole development:

* Go `int` is modelled by `Int`.  The only arithmetic in the code is
  `count++` / `currentIndex++`, bounded by the number of array elements of
  the stream, so 64-bit wrap-around cannot occur.
* In the dictionary part a Go `string` is modelled by `String` (a sequence
  of Unicode scalar values): the words come out of the JSON decoder, which
  produces valid UTF-8.  In the user meanings part, where strings pass
  through the JSON encoder, a Go `string` is the byte sequence `GoString`,
  valid UTF-8 or not.
* `encoding/json`, `os`, `math/rand`, `strings` and `unicode` are libraries,
  not code of this repository.  Their observable behaviour is modelled by the
  types `Stream`, `World`, `Rand`, `Doc`, `FS` below; the rune table
  `unicode.ToLower` is a parameter.
* A Go `error` built by `fmt.Errorf` is a constructor of `Error`; the
  rendered text is `Error.message`.
-/

namespace Fivebin

/-! ## Data model (`main.go`) -/

/-- Phonetics contains pronunciation information. -/
structure Phonetics where
  US : String := ""
  UK : String := ""
deriving DecidableEq, Repr, Inhabited

/-- Value contains the actual word data.  The Go field `Type` is spelled
`Type_` here, `Type` being reserved. -/
structure Value where
  Word : String := ""
  Href : String := ""
  Type_ : String := ""
  Level : String := ""
  Phonetics : Phonetics := {}
  Examples : List String := []
deriving DecidableEq, Repr, Inhabited

/-- Root represents the top-level structure of each dictionary entry. -/
structure Root where
  ID : Int := 0
  Value : Value := {}
deriving DecidableEq, Repr, Inhabited

deriving instance DecidableEq for Except

/-! ## The JSON decoder as seen by the dictionary -/

/-- A `json.Token`: what `decoder.Token()` returns when it does not fail.
`delim` carries one of the four delimiters; the other constructors are the
scalar tokens (a number is kept as its literal text). -/
inductive Token where
  | delim (c : Char)
  | bool (b : Bool)
  | number (text : String)
  | string (s : String)
  | null
deriving DecidableEq, Repr

/-- The bytes of a dataset, as a `json.Decoder` freshly created on them
observes them through the calls the dictionary makes:

* `first` is the outcome of the first `decoder.Token()` call: an error text
  (empty input, invalid first byte) or the token read.  For input starting
  with an opening bracket it is `delim '['`, for input starting with an
  opening brace it is `delim '{'`, for a bare scalar it is that scalar.
* `items` lists, in stream order, the values for which `decoder.More()`
  answers true, each with the outcome of `decoder.Decode(&item)` on it:
  the decoded `Root` or the error text.  `More()` answers false when the
  list is exhausted (next byte is a closing bracket or brace, or the input
  has ended).

For example the bytes of an array of two objects give `delim '['` and two
items; the bytes of the empty top-level object give the opening brace as
first token and no item (after the opening brace the next byte is the
closing brace, on which `More()` answers false); a bare number gives that
number as first token and no item (`More()` answers false at the end of
the input).

Every function of the dictionary returns at the first failing `Decode`, so
what follows a failed item is never observed. -/
structure Stream where
  first : Except String Token
  items : List (Except String Root)

/-- The environment of the dictionary: the embedded `resources/data.json`
and, for each path, what `os.Open` followed by reading yields (an error
text when the file cannot be opened). -/
structure World where
  embeddedData : Stream
  files : String → Except String Stream

/-! ## Errors -/

/-- The errors returned by the functions of `dictionary.go`.  The `cause`
fields hold the text of the wrapped library error (verb `%w`). -/
inductive Error where
  /-- An error of `getReader` returned as is (`os.Open` failed). -/
  | openFailed (cause : String)
  /-- Built by `fmt.Errorf("failed to count words: %w", err)`. -/
  | countFailed (err : Error)
  /-- Built by `fmt.Errorf("expected array start: %w", err)`. -/
  | expectedArrayStart (cause : String)
  /-- Built by `fmt.Errorf("failed to decode entry: %w", err)`. -/
  | decodeEntry (cause : String)
  /-- Built by `fmt.Errorf("failed to decode entry at index %d: %w", currentIndex, err)`. -/
  | decodeEntryAt (currentIndex : Int) (cause : String)
  /-- Built by `fmt.Errorf("index %d out of range [0, %d)", index, d.totalWords)`. -/
  | indexOutOfRange (index : Int) (totalWords : Int)
  /-- Built by `fmt.Errorf("word at index %d not found", index)`. -/
  | indexNotFound (index : Int)
  /-- Built by `fmt.Errorf("dictionary is empty")`. -/
  | dictionaryEmpty
  /-- Built by `fmt.Errorf("search word cannot be empty")`. -/
  | searchWordEmpty
  /-- Built by `fmt.Errorf("word '%s' not found", searchWord)`. -/
  | wordNotFound (searchWord : String)
deriving DecidableEq, Repr

/-- The text of an error, as `err.Error()` renders it. -/
def Error.message : Error → String
  | .openFailed cause => cause
  | .countFailed err => "failed to count words: " ++ err.message
  | .expectedArrayStart cause => "expected array start: " ++ cause
  | .decodeEntry cause => "failed to decode entry: " ++ cause
  | .decodeEntryAt i cause =>
      "failed to decode entry at index " ++ toString i ++ ": " ++ cause
  | .indexOutOfRange index totalWords =>
      "index " ++ toString index ++ " out of range [0, " ++ toString totalWords ++ ")"
  | .indexNotFound index => "word at index " ++ toString index ++ " not found"
  | .dictionaryEmpty => "dictionary is empty"
  | .searchWordEmpty => "search word cannot be empty"
  | .wordNotFound searchWord => "word " ++ "\x27" ++ searchWord ++ "\x27" ++ " not found"

/-! ## Dictionary (`dictionary.go`) -/

/-- Dictionary handles memory-efficient operations on the JSON dictionary
file.  The field `dataReader` of the Go struct is written once by
`NewDictionary` and never read, so it is not represented. -/
structure Dictionary where
  filename : String := ""
  totalWords : Int := 0
  lastIndex : Int := 0
  useEmbedded : Bool := false
deriving DecidableEq, Repr

/-- The function `getReader`: a fresh reader on the dictionary data (file
or embedded). -/
def getReader (w : World) (d : Dictionary) : Except String Stream :=
  if d.useEmbedded then .ok w.embeddedData else w.files d.filename

/-- The loop `for decoder.More()` of `countWords`, started with the running
`count`. -/
def countLoop : List (Except String Root) → Int → Except Error Int
  | [], count => .ok count
  | .error err :: _, _ => .error (.decodeEntry err)
  | .ok _ :: rest, count => countLoop rest (count + 1)

/-- The function `countWords`: streams through the JSON file and counts
total entries. -/
def countWords (w : World) (d : Dictionary) : Except Error Int :=
  match getReader w d with
  | .error err => .error (.openFailed err)
  | .ok reader =>
    match reader.first with
    | .error err => .error (.expectedArrayStart err)
    | .ok _ => countLoop reader.items 0

/-- The first half of `NewDictionary` (up to the call of `countWords`): the
struct with `lastIndex` -1, meaning no word has been shown yet; an empty
filename or the filename "embedded" selects the embedded data. -/
def initDictionary (filename : String) : Dictionary :=
  if filename == "" || filename == "embedded" then
    { lastIndex := -1, useEmbedded := true, filename := "embedded" }
  else
    { lastIndex := -1, useEmbedded := false, filename := filename }

/-- The function `NewDictionary`: creates a new Dictionary instance and
counts the total words on initialization. -/
def NewDictionary (w : World) (filename : String) : Except Error Dictionary :=
  let dict := initDictionary filename
  match countWords w dict with
  | .error err => .error (.countFailed err)
  | .ok count => .ok { dict with totalWords := count }

/-- The loop `for decoder.More()` of `GetWordByIndex`, started with the
running `currentIndex`; falling out of the loop is the not-found error. -/
def indexLoop (index : Int) : List (Except String Root) → Int → Except Error Root
  | [], _ => .error (.indexNotFound index)
  | .error err :: _, currentIndex => .error (.decodeEntryAt currentIndex err)
  | .ok item :: rest, currentIndex =>
    if currentIndex == index then .ok item else indexLoop index rest (currentIndex + 1)

/-- The function `GetWordByIndex`: streams to a specific index and returns
that word. -/
def GetWordByIndex (w : World) (d : Dictionary) (index : Int) : Except Error Root :=
  if index < 0 || index ≥ d.totalWords then
    .error (.indexOutOfRange index d.totalWords)
  else
    match getReader w d with
    | .error err => .error (.openFailed err)
    | .ok reader =>
      match reader.first with
      | .error err => .error (.expectedArrayStart err)
      | .ok _ => indexLoop index reader.items 0

/-- The function `GetTotalWords`: the stored total. -/
def GetTotalWords (d : Dictionary) : Int := d.totalWords

/-! ### Random selection -/

/-- The shared generator of `math/rand`: `raw` is the sequence of values it
will produce (fixed by the seed, unknown to the program) and `pos` the
number of values consumed so far. -/
structure Rand where
  raw : Nat → Nat
  pos : Nat

/-- The call `rand.Intn(n)`: panics (`none`) when `n <= 0`, otherwise
consumes one value and returns a number in the half-open interval from 0
to `n`.  Every sequence of in-range results is produced by some `raw`. -/
def Rand.Intn (rng : Rand) (n : Int) : Option (Int × Rand) :=
  if n ≤ 0 then none
  else some ((rng.raw rng.pos : Int) % n, { rng with pos := rng.pos + 1 })

/-- How a call that contains an unbounded loop ends: it returns, it panics,
or it is still looping when the iteration budget of the model is used up. -/
inductive Outcome (α : Type) where
  | returned (a : α)
  | panicked
  | looping

/-- The loop `for` of `GetRandomWord` that draws `randomIndex`, run for at
most `fuel` iterations. -/
def chooseIndex (d : Dictionary) : Rand → Nat → Outcome (Int × Rand)
  | _, 0 => .looping
  | rng, fuel + 1 =>
    match rng.Intn d.totalWords with
    | none => .panicked
    | some (randomIndex, rng1) =>
      if d.totalWords == 1 then .returned (randomIndex, rng1)
      else if randomIndex != d.lastIndex then .returned (randomIndex, rng1)
      else chooseIndex d rng1 fuel

/-- The function `GetRandomWord`: returns a random word that was not shown
in the previous call.  The result carries the dictionary and the generator
as the call leaves them. -/
def GetRandomWord (w : World) (d : Dictionary) (rng : Rand) (fuel : Nat) :
    Outcome (Except Error Root × Dictionary × Rand) :=
  if d.totalWords == 0 then
    .returned (.error .dictionaryEmpty, d, rng)
  else
    match chooseIndex d rng fuel with
    | .looping => .looping
    | .panicked => .panicked
    | .returned (randomIndex, rng1) =>
      let d1 : Dictionary := { d with lastIndex := randomIndex }
      .returned (GetWordByIndex w d1 randomIndex, d1, rng1)

/-! ### Search by word -/

/-- The predicate `unicode.IsSpace`: the Latin-1 spaces tab, line feed,
vertical tab, form feed, carriage return, space, U+0085, U+00A0, and the
code points of the category White_Space above Latin-1. -/
def isSpace (c : Char) : Bool :=
  let n := c.toNat
  n == 0x09 || n == 0x0A || n == 0x0B || n == 0x0C || n == 0x0D || n == 0x20 ||
  n == 0x85 || n == 0xA0 || n == 0x1680 || (0x2000 ≤ n && n ≤ 0x200A) ||
  n == 0x2028 || n == 0x2029 || n == 0x202F || n == 0x205F || n == 0x3000

/-- The function `strings.TrimSpace`: all leading and trailing white space
removed. -/
def TrimSpace (s : String) : String :=
  ⟨((s.data.dropWhile isSpace).reverse.dropWhile isSpace).reverse⟩

/-- The function `strings.ToLower`: every rune mapped by `unicode.ToLower`,
which is the parameter `lower`. -/
def ToLower (lower : Char → Char) (s : String) : String :=
  ⟨s.data.map lower⟩

/-- The loop `for decoder.More()` of `FindWord`. -/
def findLoop (lower : Char → Char) (searchWord searchWordLower : String) :
    List (Except String Root) → Except Error Root
  | [] => .error (.wordNotFound searchWord)
  | .error err :: _ => .error (.decodeEntry err)
  | .ok item :: rest =>
    if ToLower lower (TrimSpace item.Value.Word) == searchWordLower then .ok item
    else findLoop lower searchWord searchWordLower rest

/-- The function `FindWord`: searches for a word by name, case-insensitive. -/
def FindWord (lower : Char → Char) (w : World) (d : Dictionary) (searchWord : String) :
    Except Error Root :=
  if searchWord == "" then
    .error .searchWordEmpty
  else
    let searchWordLower := ToLower lower (TrimSpace searchWord)
    match getReader w d with
    | .error err => .error (.openFailed err)
    | .ok reader =>
      match reader.first with
      | .error err => .error (.expectedArrayStart err)
      | .ok _ => findLoop lower searchWord searchWordLower reader.items

/-! ## User meanings (`user_meanings.go`) -/

/-- A Go `string` as `user_meanings.go` handles it: any sequence of bytes,
valid UTF-8 or not. -/
abbrev GoString := List UInt8

/-- A continuation byte, in the range 0x80 to 0xBF. -/
def isCont (b : UInt8) : Bool := 0x80 ≤ b && b ≤ 0xBF

/-- The width that `utf8.DecodeRuneInString` reports on a non-empty string:
`some n` when the string starts with a well-formed encoding of `n` bytes,
`none` when it does not (the call then returns `RuneError` with width 1).
The cases are the table `first` and the accept ranges of `unicode/utf8`:
the second byte is restricted after the lead bytes E0, ED, F0 and F4. -/
def runeSize : GoString → Option Nat
  | [] => none
  | s0 :: rest =>
    if s0 < 0x80 then some 1
    else if s0 < 0xC2 then none
    else if s0 < 0xE0 then
      match rest with
      | s1 :: _ => if isCont s1 then some 2 else none
      | _ => none
    else if s0 < 0xF0 then
      match rest with
      | s1 :: s2 :: _ =>
        let lo : UInt8 := if s0 = 0xE0 then 0xA0 else 0x80
        let hi : UInt8 := if s0 = 0xED then 0x9F else 0xBF
        if lo ≤ s1 && s1 ≤ hi && isCont s2 then some 3 else none
      | _ => none
    else if s0 < 0xF5 then
      match rest with
      | s1 :: s2 :: s3 :: _ =>
        let lo : UInt8 := if s0 = 0xF0 then 0x90 else 0x80
        let hi : UInt8 := if s0 = 0xF4 then 0x8F else 0xBF
        if lo ≤ s1 && s1 ≤ hi && isCont s2 && isCont s3 then some 4 else none
      | _ => none
    else none

/-- The UTF-8 encoding of U+FFFD, the replacement character. -/
def replacementChar : GoString := [0xEF, 0xBF, 0xBD]

/-- The walk of `coerceUTF8`; `skip` counts the bytes still to copy of the
well-formed encoding the walk is inside. -/
def coerceFrom : Nat → GoString → GoString
  | _, [] => []
  | skip + 1, b :: rest => b :: coerceFrom skip rest
  | 0, b :: rest =>
    match runeSize (b :: rest) with
    | none => replacementChar ++ coerceFrom 0 rest
    | some n => b :: coerceFrom (n - 1) rest

/-- What a string becomes when `encoding/json` writes it and reads it back.
The encoder walks the string with `utf8.DecodeRuneInString`; a well-formed
encoding is written so that the decoder reads the same bytes back (as is,
or as an escape denoting the same character), and each byte for which the
call returns `RuneError` with width 1 is written as the escape of U+FFFD,
which the decoder reads back as the three bytes of that character. -/
def coerceUTF8 (s : GoString) : GoString := coerceFrom 0 s

/-- A Go `map[string]string`: `none` is the nil map, `some m` a map with
unique keys. -/
abbrev StringMap := Option (AList (fun _ : GoString => GoString))

/-- What a file holds, as `json.Decoder.Decode` into a `map[string]string`
observes it: a JSON object whose members are strings (the names and values
as the decoder reads them, in file order, duplicate names possible), the
JSON value `null`, or anything that makes `Decode` fail with the given
text. -/
inductive Doc where
  | object (members : List (GoString × GoString))
  | null
  | invalid (err : String)
deriving DecidableEq, Repr

/-- The file system as `user_meanings.go` uses it.  `content` gives what
each existing file holds (`none`: no such file); `openErr` the paths on
which `os.Open` fails for another reason than absence; `createErr` the
paths on which `os.Create` fails; `writeErr` the paths on which the write
of `Encode` fails, with what the truncated file holds afterwards. -/
structure FS where
  content : String → Option Doc
  openErr : String → Option String
  createErr : String → Option String
  writeErr : String → Option (String × Doc)

/-- The errors returned by the functions of `user_meanings.go`. -/
inductive StoreError where
  /-- The error of `os.Open` on an absent file, returned as is; it is the
  one error for which `os.IsNotExist` answers true. -/
  | notExist (path : String)
  /-- Another error of `os.Open`, returned as is. -/
  | openFailed (cause : String)
  /-- Built by `fmt.Errorf("failed to decode user meanings: %w", err)`. -/
  | decodeFailed (cause : String)
  /-- Built by `fmt.Errorf("failed to load user meanings: %w", err)`. -/
  | loadFailed (err : StoreError)
  /-- Built by `fmt.Errorf("failed to create file: %w", err)`. -/
  | createFailed (cause : String)
  /-- Built by `fmt.Errorf("failed to encode user meanings: %w", err)`. -/
  | encodeFailed (cause : String)
deriving DecidableEq, Repr

/-- The test `os.IsNotExist(err)`; it does not unwrap `fmt.Errorf` errors. -/
def IsNotExist : StoreError → Bool
  | .notExist _ => true
  | _ => false

/-- UserMeanings manages user-saved meanings: a map with word as key and
meaning as value.  The mutex `mu` has no sequential content. -/
structure UserMeanings where
  filename : String
  meanings : StringMap

/-- The call `os.Open(path)` followed by reading the file. -/
def FS.open_ (fs : FS) (path : String) : Except StoreError Doc :=
  match fs.openErr path with
  | some cause => .error (.openFailed cause)
  | none =>
    match fs.content path with
    | none => .error (.notExist path)
    | some doc => .ok doc

/-- The file system after `path` has been given the content `doc`. -/
def FS.store (fs : FS) (path : String) (doc : Doc) : FS :=
  { fs with content := fun p => if p = path then some doc else fs.content p }

/-- The call `decoder.Decode(&meanings)`: the members of a JSON object are
assigned in file order (a later duplicate overwrites) into the existing
map, or into a new map when the existing one is nil; the JSON value `null`
sets the map to nil. -/
def decodeInto (meanings : StringMap) : Doc → Except String StringMap
  | .object members =>
    .ok (some (members.foldl (fun m p => m.insert p.1 p.2) (meanings.getD ∅)))
  | .null => .ok none
  | .invalid err => .error err

/-- The call `encoder.Encode(meanings)`, by what the decoder reads back from
the text written: `null` for the nil map; otherwise the JSON object with
one member per key, the keys sorted as Go strings (byte order), name and
value each rewritten by `coerceUTF8`. -/
def encode : StringMap → Doc
  | none => .null
  | some m =>
    .object (((m.entries.map (fun e => (e.1, e.2))).insertionSort
      (fun a b => a.1 ≤ b.1)).map (fun p => (coerceUTF8 p.1, coerceUTF8 p.2)))

/-- The method `load`: reads user meanings from the JSON file. -/
def UserMeanings.load (fs : FS) (um : UserMeanings) : Except StoreError UserMeanings :=
  match fs.open_ um.filename with
  | .error err => .error err
  | .ok doc =>
    match decodeInto um.meanings doc with
    | .error err => .error (.decodeFailed err)
    | .ok m => .ok { um with meanings := m }

/-- The function `NewUserMeanings`: starts from an empty, non-nil map
(`make`), loads existing meanings from the file if it exists, and keeps the
empty map if it does not. -/
def NewUserMeanings (fs : FS) (filename : String) : Except StoreError UserMeanings :=
  let um : UserMeanings := { filename := filename, meanings := some ∅ }
  match um.load fs with
  | .error err => if !IsNotExist err then .error (.loadFailed err) else .ok um
  | .ok um1 => .ok um1

/-- The method `save`: writes user meanings to the JSON file; returns the
error, if any, and the file system as the call leaves it. -/
def UserMeanings.save (fs : FS) (um : UserMeanings) : Option StoreError × FS :=
  match fs.createErr um.filename with
  | some cause => (some (.createFailed cause), fs)
  | none =>
    match fs.writeErr um.filename with
    | some (cause, left) => (some (.encodeFailed cause), fs.store um.filename left)
    | none => (none, fs.store um.filename (encode um.meanings))

/-- The method `Set`: saves a meaning for a word.  The assignment
`um.meanings[word] = meaning` panics on the nil map; otherwise the call
returns the error of `save`, if any, with the store and the file system as
it leaves them. -/
def UserMeanings.Set (fs : FS) (um : UserMeanings) (word meaning : GoString) :
    Outcome (Option StoreError × UserMeanings × FS) :=
  match um.meanings with
  | none => .panicked
  | some m =>
    let um1 : UserMeanings := { um with meanings := some (m.insert word meaning) }
    let r := um1.save fs
    .returned (r.1, um1, r.2)

/-- All items of a stream decoded, or `none` when one of them fails. -/
def allRecords : List (Except String Root) → Option (List Root)
  | [] => some []
  | .error _ :: _ => none
  | .ok item :: rest => (allRecords rest).map (item :: ·)

/-- A full decode of the dataset, independent of the dictionary: the top
level value must be an array (first token the opening bracket) and every
element must decode; the result is the list of records in stream order. -/
def decodeAll (s : Stream) : Option (List Root) :=
  match s.first with
  | .ok (.delim c) => if c = '[' then allRecords s.items else none
  | _ => none

/-- The normalisation the search applies to the query and to each word:
surrounding white space trimmed, then lower-cased. -/
def normalize (lower : Char → Char) (s : String) : String :=
  ToLower lower (TrimSpace s)

/-- The first record, in sequence order, whose normalised word equals the
normalised query. -/
def firstMatch (lower : Char → Char) (recs : List Root) (query : String) : Option Root :=
  recs.find? (fun r => normalize lower r.Value.Word == normalize lower query)

/-! ## Sample data -/

/-- The record with id 1 and word "apple". -/
def apple : Root := { ID := 1, Value := { Word := "apple" } }

/-- The record with id 2 and word "banana". -/
def banana : Root := { ID := 2, Value := { Word := "banana" } }

/-- The two-record dataset of the concrete scenario: an array holding
`apple` then `banana`. -/
def fruitStream : Stream :=
  { first := .ok (.delim '['), items := [.ok apple, .ok banana] }

/-- A world whose embedded data is `fruitStream` and that has no files. -/
def fruitWorld : World :=
  { embeddedData := fruitStream, files := fun _ => .error "no such file" }

/-- The dictionary `NewDictionary` builds over `fruitWorld`. -/
def fruitDict : Dictionary :=
  { filename := "embedded", totalWords := 2, lastIndex := -1, useEmbedded := true }

/-- The record with id 7 and word "Serendipity". -/
def serendipity : Root := { ID := 7, Value := { Word := "Serendipity" } }

/-- A world whose embedded data is the array holding `apple` then
`serendipity`. -/
def wordWorld : World :=
  { embeddedData := { first := .ok (.delim '['), items := [.ok apple, .ok serendipity] },
    files := fun _ => .error "no such file" }

/-- The record with id 3 whose word is the empty string. -/
def blank : Root := { ID := 3, Value := { Word := "" } }

/-- A world whose embedded data is the array holding `apple` then `blank`. -/
def blankWorld : World :=
  { embeddedData := { first := .ok (.delim '['), items := [.ok apple, .ok blank] },
    files := fun _ => .error "no such file" }

/-- A world whose embedded data is the top-level object with no members:
the first token is the opening brace and `More()` answers false at once. -/
def braceWorld : World :=
  { embeddedData := { first := .ok (.delim '\x7b'), items := [] },
    files := fun _ => .error "no such file" }

/-- A world whose embedded data is the bare number 5: the first token is
that number and `More()` answers false at the end of the input. -/
def numberWorld : World :=
  { embeddedData := { first := .ok (.number "5"), items := [] },
    files := fun _ => .error "no such file" }

/-- A generator whose successive values are 0, 0, 1, 1, 2, 2, ... -/
def halfRand : Rand := { raw := fun i => i / 2, pos := 0 }

/-- A generator whose every value is 1. -/
def onesRand : Rand := { raw := fun _ => 1, pos := 0 }

/-- A world whose embedded data is the array holding `apple` alone. -/
def appleWorld : World :=
  { embeddedData := { first := .ok (.delim '['), items := [.ok apple] },
    files := fun _ => .error "no such file" }

/-- The dictionary `NewDictionary` builds over `appleWorld`. -/
def appleDict : Dictionary :=
  { filename := "embedded", totalWords := 1, lastIndex := -1, useEmbedded := true }

/-- A file system in which "m.json" holds the JSON value `null` and no
operation fails. -/
def nullFS : FS :=
  { content := fun p => if p = "m.json" then some .null else none,
    openErr := fun _ => none, createErr := fun _ => none, writeErr := fun _ => none }

/-- A world whose embedded data is an array whose first element decodes to
`apple` and whose second element fails to decode. -/
def brokenWorld : World :=
  { embeddedData :=
      { first := .ok (.delim '['), items := [.ok apple, .error "unexpected end of JSON input"] },
    files := fun _ => .error "no such file" }

/-! ## Theorems -/

/-! ### Helper lemmas on the stream loops -/

theorem getReader_congr (w : World) (d d1 : Dictionary)
    (hf : d1.filename = d.filename) (hu : d1.useEmbedded = d.useEmbedded) :
    getReader w d1 = getReader w d := by
  simp [getReader, hf, hu]

theorem countLoop_of_allRecords (items : List (Except String Root)) (recs : List Root)
    (h : allRecords items = some recs) (count : Int) :
    countLoop items count = .ok (count + recs.length) := by
  induction items generalizing recs count with
  | nil =>
    simp [allRecords] at h
    subst h
    simp [countLoop]
  | cons x rest ih =>
    cases x with
    | error e => simp [allRecords] at h
    | ok item =>
      simp only [allRecords, Option.map_eq_some'] at h
      obtain ⟨tl, htl, rfl⟩ := h
      simp only [countLoop, ih tl htl, List.length_cons]
      congr 1
      push_cast
      ring

theorem allRecords_of_countLoop (items : List (Except String Root)) (count n : Int)
    (h : countLoop items count = .ok n) :
    ∃ recs, allRecords items = some recs ∧ n = count + recs.length := by
  induction items generalizing count with
  | nil =>
    simp [countLoop] at h
    exact ⟨[], rfl, by simp [h]⟩
  | cons x rest ih =>
    cases x with
    | error e => simp [countLoop] at h
    | ok item =>
      simp only [countLoop] at h
      obtain ⟨tl, htl, hn⟩ := ih _ h
      refine ⟨item :: tl, by simp [allRecords, htl], ?_⟩
      rw [hn]
      simp only [List.length_cons]
      push_cast
      ring

theorem indexLoop_of_allRecords (items : List (Except String Root)) (recs : List Root)
    (h : allRecords items = some recs) (index currentIndex : Int)
    (hle : currentIndex ≤ index) (hlt : index < currentIndex + recs.length) :
    ∃ r, indexLoop index items currentIndex = .ok r ∧
      recs[(index - currentIndex).toNat]? = some r := by
  induction items generalizing recs currentIndex with
  | nil =>
    simp [allRecords] at h
    subst h
    simp at hlt
    omega
  | cons x rest ih =>
    cases x with
    | error e => simp [allRecords] at h
    | ok item =>
      simp only [allRecords, Option.map_eq_some'] at h
      obtain ⟨tl, htl, rfl⟩ := h
      by_cases hc : currentIndex = index
      · subst hc
        exact ⟨item, by simp [indexLoop], by simp⟩
      · have hlt2 : index < currentIndex + 1 + tl.length := by
          simp only [List.length_cons] at hlt
          push_cast at hlt
          omega
        obtain ⟨r, hr, hget⟩ := ih tl htl (currentIndex + 1) (by omega) hlt2
        refine ⟨r, by simp [indexLoop, hc, hr], ?_⟩
        have hnat : (index - currentIndex).toNat = (index - (currentIndex + 1)).toNat + 1 := by
          omega
        rw [hnat, List.getElem?_cons_succ]
        exact hget

theorem NewDictionary_ok (w : World) (filename : String) (d : Dictionary)
    (h : NewDictionary w filename = .ok d) :
    d.filename = (initDictionary filename).filename ∧
    d.useEmbedded = (initDictionary filename).useEmbedded ∧
    d.lastIndex = -1 ∧
    countWords w (initDictionary filename) = .ok d.totalWords := by
  unfold NewDictionary at h
  simp only at h
  cases hc : countWords w (initDictionary filename) with
  | error e => simp [hc] at h
  | ok n =>
    simp only [hc, Except.ok.injEq] at h
    subst h
    refine ⟨rfl, rfl, ?_, rfl⟩
    unfold initDictionary
    split <;> rfl

theorem decodeAll_some (s : Stream) (recs : List Root) (h : decodeAll s = some recs) :
    s.first = .ok (.delim '[') ∧ allRecords s.items = some recs := by
  unfold decodeAll at h
  split at h
  · split at h
    · rename_i c hfirst hc
      subst hc
      exact ⟨hfirst, h⟩
    · simp at h
  · simp at h

theorem totalWords_of_NewDictionary (w : World) (filename : String) (d : Dictionary)
    (s : Stream) (recs : List Root)
    (hnew : NewDictionary w filename = .ok d)
    (hsrc : getReader w d = .ok s)
    (hfull : decodeAll s = some recs) :
    d.totalWords = recs.length := by
  obtain ⟨hf, hu, -, hcount⟩ := NewDictionary_ok w filename d hnew
  obtain ⟨hfirst, hall⟩ := decodeAll_some s recs hfull
  have hsrc0 : getReader w (initDictionary filename) = .ok s := by
    rw [← hsrc]
    exact (getReader_congr w _ d hf hu).symm
  simp only [countWords, hsrc0, hfirst] at hcount
  rw [countLoop_of_allRecords _ recs hall 0] at hcount
  simp only [Except.ok.injEq] at hcount
  omega

theorem GetWordByIndex_of_full_decode (w : World) (d : Dictionary)
    (s : Stream) (recs : List Root)
    (hsrc : getReader w d = .ok s)
    (hfull : decodeAll s = some recs)
    (htotal : d.totalWords = recs.length)
    (i : Int) (h0 : 0 ≤ i) (hlt : i < d.totalWords) :
    ∃ r, GetWordByIndex w d i = .ok r ∧ recs[i.toNat]? = some r := by
  obtain ⟨hfirst, hall⟩ := decodeAll_some s recs hfull
  obtain ⟨r, hr, hget⟩ :=
    indexLoop_of_allRecords s.items recs hall i 0 h0 (by omega)
  refine ⟨r, ?_, by simpa using hget⟩
  have hguard : ¬ (i < 0 ∨ d.totalWords ≤ i) := by omega
  simp [GetWordByIndex, hguard, hsrc, hfirst, hr]

/-! ### Fetch by index and total count -/

/-- C1: for a dictionary built by `NewDictionary` over a dataset that a full
independent decode turns into the records `recs`, and that is the same when
`GetWordByIndex` reads it, every ordinal `i` with `0 <= i < GetTotalWords()`
makes `GetWordByIndex(i)` succeed with exactly the record at zero-based
position `i` of `recs`. -/
theorem GetWordByIndex_eq_full_decode (w : World) (filename : String) (d : Dictionary)
    (s : Stream) (recs : List Root)
    (hnew : NewDictionary w filename = .ok d)
    (hsrc : getReader w d = .ok s)
    (hfull : decodeAll s = some recs)
    (i : Int) (h0 : 0 ≤ i) (hlt : i < GetTotalWords d) :
    ∃ r, GetWordByIndex w d i = .ok r ∧ recs[i.toNat]? = some r := by
  have htotal := totalWords_of_NewDictionary w filename d s recs hnew hsrc hfull
  exact GetWordByIndex_of_full_decode w d s recs hsrc hfull htotal i h0 hlt

/-- Witness of C1 on the two-record dataset: ordinal 1 yields `banana`, the
record at position 1 of the full decode. -/
theorem GetWordByIndex_eq_full_decode_witness :
    ∃ r, GetWordByIndex fruitWorld fruitDict 1 = .ok r ∧ [apple, banana][(1 : Int).toNat]? = some r :=
  GetWordByIndex_eq_full_decode fruitWorld "" fruitDict fruitStream [apple, banana]
    (by decide) (by rfl) (by decide) 1 (by decide) (by decide)

/-- C2: for a dataset that a full independent decode turns into the records
`recs`, `NewDictionary` succeeds and `GetTotalWords()` of the dictionary it
returns is the number of records; `GetTotalWords()` is the stored field,
read without any access to the dataset. -/
theorem NewDictionary_total_eq_full_decode (w : World) (filename : String)
    (s : Stream) (recs : List Root)
    (hsrc : getReader w (initDictionary filename) = .ok s)
    (hfull : decodeAll s = some recs) :
    (∃ d, NewDictionary w filename = .ok d ∧ GetTotalWords d = recs.length) ∧
    (∀ d : Dictionary, GetTotalWords d = d.totalWords) := by
  obtain ⟨hfirst, hall⟩ := decodeAll_some s recs hfull
  refine ⟨⟨{ initDictionary filename with totalWords := recs.length }, ?_, rfl⟩, fun _ => rfl⟩
  simp [NewDictionary, countWords, hsrc, hfirst, countLoop_of_allRecords _ recs hall 0]

/-- Witness of C2 on the two-record dataset: the total is 2. -/
theorem NewDictionary_total_eq_full_decode_witness :
    (∃ d, NewDictionary fruitWorld "" = .ok d ∧ GetTotalWords d = ([apple, banana].length : Nat)) ∧
    (∀ d : Dictionary, GetTotalWords d = d.totalWords) :=
  NewDictionary_total_eq_full_decode fruitWorld "" fruitStream [apple, banana]
    (by rfl) (by decide)

/-- C3: an ordinal below 0 or at least `totalWords` makes `GetWordByIndex`
fail with the index-out-of-range error carrying that ordinal and the bound
`totalWords`, both named in its message, and no record is returned; an
ordinal inside the range never gets an index-out-of-range error. -/
theorem GetWordByIndex_out_of_range (w : World) (d : Dictionary) (index : Int) :
    ((index < 0 ∨ index ≥ d.totalWords) →
      GetWordByIndex w d index = .error (.indexOutOfRange index d.totalWords) ∧
      (Error.indexOutOfRange index d.totalWords).message =
        "index " ++ toString index ++ " out of range [0, " ++ toString d.totalWords ++ ")") ∧
    ((0 ≤ index ∧ index < d.totalWords) →
      ∀ a b, GetWordByIndex w d index ≠ .error (.indexOutOfRange a b)) := by
  constructor
  · intro h
    refine ⟨?_, rfl⟩
    have hguard : index < 0 ∨ d.totalWords ≤ index := h
    simp [GetWordByIndex, hguard]
  · rintro ⟨h0, hlt⟩ a b
    have hguard : ¬ (index < 0 ∨ d.totalWords ≤ index) := by omega
    simp only [GetWordByIndex, Bool.or_eq_true, decide_eq_true_eq, ge_iff_le, hguard,
      if_false]
    cases hr : getReader w d with
    | error e => simp
    | ok reader =>
      cases hfirst : reader.first with
      | error e => simp [hfirst]
      | ok t =>
        simp only [hfirst]
        have key : ∀ (items : List (Except String Root)) (cur : Int),
            indexLoop index items cur ≠ .error (.indexOutOfRange a b) := by
          intro items
          induction items with
          | nil => intro cur; simp [indexLoop]
          | cons x rest ih =>
            intro cur
            cases x with
            | error e => simp [indexLoop]
            | ok item =>
              simp only [indexLoop]
              split
              · simp
              · exact ih _
        exact key _ _

/-- Witness of C3 on the two-record dataset: ordinals -1 and 2 are rejected
citing the bound 2, ordinal 1 is not. -/
theorem GetWordByIndex_out_of_range_witness :
    GetWordByIndex fruitWorld fruitDict (-1) = .error (.indexOutOfRange (-1) 2) ∧
    GetWordByIndex fruitWorld fruitDict 2 = .error (.indexOutOfRange 2 2) ∧
    (Error.indexOutOfRange 2 2).message = "index 2 out of range [0, 2)" ∧
    (∀ a b, GetWordByIndex fruitWorld fruitDict 1 ≠ .error (.indexOutOfRange a b)) :=
  ⟨((GetWordByIndex_out_of_range fruitWorld fruitDict (-1)).1 (Or.inl (by decide))).1,
   ((GetWordByIndex_out_of_range fruitWorld fruitDict 2).1 (Or.inr (by decide))).1,
   by decide,
   (GetWordByIndex_out_of_range fruitWorld fruitDict 1).2 ⟨by decide, by decide⟩⟩

/-! ### Search by word -/

theorem TrimSpace_ne_empty (query : String) (h : TrimSpace query ≠ "") : query ≠ "" := by
  intro hq
  subst hq
  exact h (by decide)

theorem findLoop_of_allRecords (lower : Char → Char) (searchWord key : String)
    (items : List (Except String Root)) (recs : List Root)
    (h : allRecords items = some recs) :
    findLoop lower searchWord key items =
      match recs.find? (fun r => normalize lower r.Value.Word == key) with
      | some r => .ok r
      | none => .error (.wordNotFound searchWord) := by
  induction items generalizing recs with
  | nil =>
    simp [allRecords] at h
    subst h
    simp [findLoop]
  | cons x rest ih =>
    cases x with
    | error e => simp [allRecords] at h
    | ok item =>
      simp only [allRecords, Option.map_eq_some'] at h
      obtain ⟨tl, htl, rfl⟩ := h
      simp only [findLoop, List.find?_cons, normalize]
      by_cases hm : ToLower lower (TrimSpace item.Value.Word) = key
      · simp [hm]
      · simp only [beq_iff_eq, hm, if_false]
        have := ih tl htl
        simp only [normalize] at this
        have hb : (ToLower lower (TrimSpace item.Value.Word) == key) = false := by
          simp [hm]
        rw [this, hb]

theorem FindWord_of_full_decode (lower : Char → Char) (w : World) (d : Dictionary)
    (s : Stream) (recs : List Root) (query : String)
    (hsrc : getReader w d = .ok s) (hfull : decodeAll s = some recs)
    (hne : query ≠ "") :
    FindWord lower w d query =
      match firstMatch lower recs query with
      | some r => .ok r
      | none => .error (.wordNotFound query) := by
  obtain ⟨hfirst, hall⟩ := decodeAll_some s recs hfull
  simp only [FindWord, beq_iff_eq, hne, if_false, hsrc, hfirst]
  rw [findLoop_of_allRecords lower query _ s.items recs hall]
  rfl

theorem normalize_ascii (lower : Char → Char)
    (hascii : ∀ c : Char, c.toNat < 128 → lower c = c.toLower) (s : String)
    (hs : ∀ c ∈ (TrimSpace s).data, c.toNat < 128) :
    normalize lower s = normalize Char.toLower s := by
  unfold normalize ToLower
  congr 1
  exact List.map_congr_left (fun c hc => hascii c (hs c hc))

/-- C4: over a dataset that a full independent decode turns into the
records `recs`, and for a query that is non-empty after trimming,
`FindWord` returns the first record in sequence order whose trimmed,
lower-cased word equals the trimmed, lower-cased query, and fails with the
not-found error exactly when no record matches; so two queries with the same
normal form get the same record, as do "serendipity", " SERENDIPITY " and
"SerenDIPity", whose normal form is that of the word "Serendipity" for
every rune table that lower-cases ASCII the usual way. -/
theorem FindWord_first_match (lower : Char → Char) (w : World) (d : Dictionary)
    (s : Stream) (recs : List Root) (query : String)
    (hsrc : getReader w d = .ok s) (hfull : decodeAll s = some recs)
    (hq : TrimSpace query ≠ "") :
    (FindWord lower w d query =
      match firstMatch lower recs query with
      | some r => .ok r
      | none => .error (.wordNotFound query)) ∧
    ((∃ e, FindWord lower w d query = .error e) ↔
      ∀ r ∈ recs, normalize lower r.Value.Word ≠ normalize lower query) ∧
    (∀ e, FindWord lower w d query = .error e → e = .wordNotFound query) ∧
    (∀ query2, TrimSpace query2 ≠ "" → normalize lower query2 = normalize lower query →
      ∀ r, FindWord lower w d query2 = .ok r ↔ FindWord lower w d query = .ok r) ∧
    ((∀ c : Char, c.toNat < 128 → lower c = c.toLower) →
      normalize lower "serendipity" = normalize lower "Serendipity" ∧
      normalize lower " SERENDIPITY " = normalize lower "Serendipity" ∧
      normalize lower "SerenDIPity" = normalize lower "Serendipity") := by
  have hmain := FindWord_of_full_decode lower w d s recs query hsrc hfull
    (TrimSpace_ne_empty query hq)
  refine ⟨hmain, ?_, ?_, ?_, ?_⟩
  · rw [hmain]
    cases hfm : firstMatch lower recs query with
    | some r =>
      simp only [false_iff, not_forall, reduceCtorEq, exists_false]
      have hr := List.find?_some hfm
      have hmem := List.mem_of_find?_eq_some hfm
      exact ⟨r, hmem, by simpa using hr⟩
    | none =>
      simp only [Except.error.injEq, exists_eq', true_iff]
      intro r hr
      have := List.find?_eq_none.mp hfm r hr
      simpa using this
  · intro e he
    rw [hmain] at he
    cases hfm : firstMatch lower recs query with
    | some r => simp [hfm] at he
    | none =>
      simp only [hfm, Except.error.injEq] at he
      exact he.symm
  · intro query2 hq2 hnorm r
    rw [hmain, FindWord_of_full_decode lower w d s recs query2 hsrc hfull
      (TrimSpace_ne_empty query2 hq2)]
    have hfm : firstMatch lower recs query2 = firstMatch lower recs query := by
      simp only [firstMatch, hnorm]
    rw [hfm]
    cases firstMatch lower recs query <;> simp
  · intro hascii
    rw [normalize_ascii lower hascii "serendipity" (by decide),
      normalize_ascii lower hascii " SERENDIPITY " (by decide),
      normalize_ascii lower hascii "SerenDIPity" (by decide),
      normalize_ascii lower hascii "Serendipity" (by decide)]
    decide

/-- Witness of C4 on the dataset holding `apple` then `serendipity`: the
query " SERENDIPITY " returns the record `serendipity`. -/
theorem FindWord_first_match_witness :
    FindWord Char.toLower wordWorld fruitDict " SERENDIPITY " = .ok serendipity :=
  (FindWord_first_match Char.toLower wordWorld fruitDict wordWorld.embeddedData
    [apple, serendipity] " SERENDIPITY " (by rfl) (by decide) (by decide)).1.trans (by decide)

/-- C5, counterexample: the query of three spaces is empty after trimming,
yet `FindWord` does not fail with the empty-query error: over the
two-record dataset it fails with the not-found error, and over a dataset
holding a record whose word is empty it returns that record. -/
theorem FindWord_blank_query_not_rejected :
    TrimSpace "   " = "" ∧
    FindWord Char.toLower fruitWorld fruitDict "   " = .error (.wordNotFound "   ") ∧
    FindWord Char.toLower blankWorld fruitDict "   " = .ok blank := by
  decide

/-- C5, amended: `FindWord` fails with the empty-query error exactly when
the query is the empty string, whatever the dataset contains and whatever
the rune table; a non-empty query, blank or not, is never rejected with
that error. -/
theorem FindWord_empty_query_iff (lower : Char → Char) (w : World) (d : Dictionary)
    (query : String) :
    FindWord lower w d query = .error .searchWordEmpty ↔ query = "" := by
  constructor
  · intro h
    by_contra hne
    simp only [FindWord, beq_iff_eq, hne, if_false] at h
    cases hr : getReader w d with
    | error e => simp [hr] at h
    | ok reader =>
      cases hfirst : reader.first with
      | error e => simp [hr, hfirst] at h
      | ok t =>
        simp only [hr, hfirst] at h
        have key : ∀ (items : List (Except String Root)) (q k : String),
            findLoop lower q k items ≠ .error .searchWordEmpty := by
          intro items q k
          induction items with
          | nil => simp [findLoop]
          | cons x rest ih =>
            cases x with
            | error e => simp [findLoop]
            | ok item =>
              simp only [findLoop]
              split
              · simp
              · exact ih
        exact key _ _ _ h
  · intro h
    subst h
    simp [FindWord]

/-! ### Construction and the top-level shape -/

/-- C7, the code at the failing inputs: over a dataset that is the empty
top-level object, and over one that is a bare number, `NewDictionary`
returns a dictionary of zero words instead of failing. -/
theorem NewDictionary_accepts_non_array :
    NewDictionary braceWorld "" =
      .ok { filename := "embedded", totalWords := 0, lastIndex := -1, useEmbedded := true } ∧
    NewDictionary numberWorld "" =
      .ok { filename := "embedded", totalWords := 0, lastIndex := -1, useEmbedded := true } ∧
    decodeAll braceWorld.embeddedData = none ∧
    decodeAll numberWorld.embeddedData = none := by
  decide

/-! ### Random selection -/

theorem chooseIndex_returned (d : Dictionary) (h1 : 1 ≤ d.totalWords) (fuel : Nat) :
    ∀ (rng : Rand) (idx : Int) (rng1 : Rand),
      chooseIndex d rng fuel = .returned (idx, rng1) →
      idx = (rng.raw (rng1.pos - 1) : Int) % d.totalWords ∧
      rng.pos < rng1.pos ∧ rng1.raw = rng.raw ∧
      0 ≤ idx ∧ idx < d.totalWords ∧
      (d.totalWords ≠ 1 → idx ≠ d.lastIndex) ∧
      (d.totalWords = 1 → rng1.pos = rng.pos + 1) := by
  induction fuel with
  | zero => intro rng idx rng1 h; simp [chooseIndex] at h
  | succ n ih =>
    intro rng idx rng1 h
    have hpos : ¬ d.totalWords ≤ 0 := by omega
    have hne0 : d.totalWords ≠ 0 := by omega
    have hlo : 0 ≤ (rng.raw rng.pos : Int) % d.totalWords := Int.emod_nonneg _ hne0
    have hhi : (rng.raw rng.pos : Int) % d.totalWords < d.totalWords :=
      Int.emod_lt_of_pos _ (by omega)
    simp only [chooseIndex, Rand.Intn, hpos, if_false] at h
    by_cases hone : d.totalWords = 1
    · simp only [hone, beq_self_eq_true, if_true, Outcome.returned.injEq, Prod.mk.injEq] at h
      obtain ⟨hidx, hrng⟩ := h
      subst hrng
      subst hidx
      simp only [hone] at hlo hhi ⊢
      exact ⟨by simp, by simp, by simp, hlo, hhi, fun hc => absurd rfl hc, fun _ => by simp⟩
    · have hb : (d.totalWords == 1) = false := by simpa using hone
      simp only [hb, Bool.false_eq_true, if_false] at h
      by_cases hsame : (rng.raw rng.pos : Int) % d.totalWords = d.lastIndex
      · simp only [hsame, bne_self_eq_false, Bool.false_eq_true, if_false] at h
        obtain ⟨e1, e2, e3, e4, e5, e6, e7⟩ := ih _ idx rng1 h
        simp only at e2 e3
        exact ⟨e1, by omega, e3, e4, e5, e6, fun hc => absurd hc hone⟩
      · have hbne : ((rng.raw rng.pos : Int) % d.totalWords != d.lastIndex) = true := by
          simpa using hsame
        simp only [hbne, if_true, Outcome.returned.injEq, Prod.mk.injEq] at h
        obtain ⟨hidx, hrng⟩ := h
        subst hrng
        subst hidx
        exact ⟨by simp, by simp, rfl, hlo, hhi, fun _ => hsame, fun hc => absurd hc hone⟩

theorem chooseIndex_fuel_mono (d : Dictionary) (fuel extra : Nat) :
    ∀ (rng : Rand) (p : Int × Rand),
      chooseIndex d rng fuel = .returned p → chooseIndex d rng (fuel + extra) = .returned p := by
  induction fuel with
  | zero => intro rng p h; simp [chooseIndex] at h
  | succ n ih =>
    intro rng p h
    rw [Nat.add_right_comm]
    simp only [chooseIndex] at h ⊢
    cases hi : rng.Intn d.totalWords with
    | none => simp [hi] at h
    | some q =>
      obtain ⟨randomIndex, rng1⟩ := q
      simp only [hi] at h ⊢
      split
      · rename_i h1
        simpa [h1] using h
      · rename_i h1
        simp only [h1, if_false] at h
        split
        · rename_i h2
          simpa [h2] using h
        · rename_i h2
          simp only [h2, if_false] at h
          exact ih rng1 p h

theorem chooseIndex_of_fresh_draw (d : Dictionary) (rng : Rand) (fuel : Nat)
    (h1 : 1 ≤ d.totalWords)
    (hfresh : (rng.raw rng.pos : Int) % d.totalWords ≠ d.lastIndex) :
    chooseIndex d rng (fuel + 1) =
      .returned ((rng.raw rng.pos : Int) % d.totalWords, { rng with pos := rng.pos + 1 }) := by
  have hpos : ¬ d.totalWords ≤ 0 := by omega
  simp only [chooseIndex, Rand.Intn, hpos, if_false]
  have hbne : ((rng.raw rng.pos : Int) % d.totalWords != d.lastIndex) = true := by
    simpa using hfresh
  simp [hbne]

theorem GetRandomWord_returned (w : World) (d : Dictionary) (rng : Rand) (fuel : Nat)
    (res : Except Error Root) (d1 : Dictionary) (rng1 : Rand)
    (h1 : 1 ≤ d.totalWords)
    (hret : GetRandomWord w d rng fuel = .returned (res, d1, rng1)) :
    ∃ idx, chooseIndex d rng fuel = .returned (idx, rng1) ∧
      d1 = { d with lastIndex := idx } ∧ res = GetWordByIndex w d1 idx := by
  have hne0 : (d.totalWords == 0) = false := by
    have : d.totalWords ≠ 0 := by omega
    simpa using this
  simp only [GetRandomWord, hne0, Bool.false_eq_true, if_false] at hret
  cases hc : chooseIndex d rng fuel with
  | looping => simp [hc] at hret
  | panicked => simp [hc] at hret
  | returned p =>
    obtain ⟨idx, r1⟩ := p
    simp only [hc, Outcome.returned.injEq, Prod.mk.injEq] at hret
    obtain ⟨hres, hd, hr⟩ := hret
    subst hr
    subst hd
    exact ⟨idx, rfl, rfl, hres.symm⟩

/-- C6: with `totalWords >= 2`, a call of `GetRandomWord` that returns has
drawn an ordinal `idx` in the range from 0 to `totalWords`, different from
`lastIndex` before the call, has stored it in `lastIndex` and has fetched
that ordinal; hence the next call that returns, whatever the generator
does, stores an ordinal different from the one of this call. -/
theorem GetRandomWord_no_immediate_repeat (w : World) (d : Dictionary) (rng : Rand)
    (fuel : Nat) (res : Except Error Root) (d1 : Dictionary) (rng1 : Rand)
    (h2 : 2 ≤ d.totalWords)
    (hret : GetRandomWord w d rng fuel = .returned (res, d1, rng1)) :
    (∃ idx, chooseIndex d rng fuel = .returned (idx, rng1) ∧
      d1.lastIndex = idx ∧ res = GetWordByIndex w d1 idx ∧
      0 ≤ idx ∧ idx < d.totalWords ∧ idx ≠ d.lastIndex) ∧
    (∀ (w2 : World) (rngA : Rand) (fuel2 : Nat) (res2 : Except Error Root)
        (d2 : Dictionary) (rng2 : Rand),
      GetRandomWord w2 d1 rngA fuel2 = .returned (res2, d2, rng2) →
      d2.lastIndex ≠ d1.lastIndex) := by
  obtain ⟨idx, hc, hd1, hres⟩ :=
    GetRandomWord_returned w d rng fuel res d1 rng1 (by omega) hret
  obtain ⟨-, -, -, hlo, hhi, hne, -⟩ := chooseIndex_returned d (by omega) fuel rng idx rng1 hc
  have htot : d1.totalWords = d.totalWords := by rw [hd1]
  have hlast : d1.lastIndex = idx := by rw [hd1]
  refine ⟨⟨idx, hc, hlast, hres, hlo, hhi, hne (by omega)⟩, ?_⟩
  intro w2 rngA fuel2 res2 d2 rng2 hret2
  obtain ⟨idx2, hc2, hd2, -⟩ :=
    GetRandomWord_returned w2 d1 rngA fuel2 res2 d2 rng2 (by omega) hret2
  obtain ⟨-, -, -, -, -, hne2, -⟩ :=
    chooseIndex_returned d1 (by omega) fuel2 rngA idx2 rng2 hc2
  have hlast2 : d2.lastIndex = idx2 := by rw [hd2]
  rw [hlast2]
  exact hne2 (by omega)

/-- Witness of C6 on the two-record dataset with the generator 0, 0, 1, ...:
the first call draws 0 and returns `apple`; the second call draws 0 again,
re-draws, gets 1 and returns `banana`. -/
theorem GetRandomWord_no_immediate_repeat_witness :
    GetRandomWord fruitWorld fruitDict halfRand 1 =
      .returned (.ok apple, { fruitDict with lastIndex := 0 }, { halfRand with pos := 1 }) ∧
    GetRandomWord fruitWorld { fruitDict with lastIndex := 0 } { halfRand with pos := 1 } 2 =
      .returned (.ok banana, { fruitDict with lastIndex := 1 }, { halfRand with pos := 3 }) ∧
    ({ fruitDict with lastIndex := 1 } : Dictionary).lastIndex ≠
      ({ fruitDict with lastIndex := 0 } : Dictionary).lastIndex :=
  ⟨rfl, rfl,
   (GetRandomWord_no_immediate_repeat fruitWorld fruitDict halfRand 1 (.ok apple)
      { fruitDict with lastIndex := 0 } { halfRand with pos := 1 } (by decide) rfl).2
      fruitWorld { halfRand with pos := 1 } 2 (.ok banana)
      { fruitDict with lastIndex := 1 } { halfRand with pos := 3 } rfl⟩

/-- C8: over a dataset with exactly one record `r`, for a dictionary built
by `NewDictionary` and whatever `lastIndex` holds afterwards, `GetRandomWord`
returns as soon as it is given one iteration, consumes exactly one draw,
returns the record `r` without error and leaves `lastIndex` at 0. -/
theorem GetRandomWord_single_record (w : World) (filename : String) (d : Dictionary)
    (s : Stream) (r : Root)
    (hnew : NewDictionary w filename = .ok d)
    (hsrc : getReader w d = .ok s)
    (hfull : decodeAll s = some [r])
    (lastIndex : Int) (rng : Rand) (fuel : Nat) :
    GetRandomWord w { d with lastIndex := lastIndex } rng (fuel + 1) =
      .returned (.ok r, { d with lastIndex := 0 }, { rng with pos := rng.pos + 1 }) := by
  have htotal : d.totalWords = 1 := by
    simpa using totalWords_of_NewDictionary w filename d s [r] hnew hsrc hfull
  obtain ⟨r0, hr0, hget⟩ :=
    GetWordByIndex_of_full_decode w d s [r] hsrc hfull (by simpa using htotal) 0
      (le_refl 0) (by omega)
  simp only [Int.toNat_zero, List.getElem?_cons_zero, Option.some.injEq] at hget
  subst hget
  have hfetch : GetWordByIndex w { d with lastIndex := 0 } 0 = .ok r := hr0
  simp only [GetRandomWord, chooseIndex, Rand.Intn, htotal]
  simp only [htotal] at hfetch
  simp only [Int.emod_one]
  simpa using hfetch

/-- Witness of C8 on the one-record dataset, with `lastIndex` already 0 after
an earlier call: one draw, the record `apple`. -/
theorem GetRandomWord_single_record_witness :
    GetRandomWord appleWorld { appleDict with lastIndex := 0 } onesRand (0 + 1) =
      .returned (.ok apple, { appleDict with lastIndex := 0 }, { onesRand with pos := 0 + 1 }) :=
  GetRandomWord_single_record appleWorld "" appleDict appleWorld.embeddedData apple
    (by decide) (by rfl) (by decide) 0 onesRand 0

/-- C10: with `totalWords >= 1`, when `GetRandomWord` returns, `lastIndex` is
the ordinal `idx` it drew (the value of its last `rand.Intn` call), the
result, record or error, is the result of `GetWordByIndex` on `idx`, and
nothing but `lastIndex` has changed in the dictionary, so `totalWords` is
unchanged; this holds whether the fetch succeeds or fails. -/
theorem GetRandomWord_updates_lastIndex (w : World) (d : Dictionary) (rng : Rand)
    (fuel : Nat) (res : Except Error Root) (d1 : Dictionary) (rng1 : Rand)
    (h1 : 1 ≤ d.totalWords)
    (hret : GetRandomWord w d rng fuel = .returned (res, d1, rng1)) :
    ∃ idx, chooseIndex d rng fuel = .returned (idx, rng1) ∧
      idx = (rng.raw (rng1.pos - 1) : Int) % d.totalWords ∧
      d1 = { d with lastIndex := idx } ∧
      d1.lastIndex = idx ∧
      d1.totalWords = d.totalWords ∧
      res = GetWordByIndex w d1 idx ∧
      res = GetWordByIndex w d idx := by
  obtain ⟨idx, hc, hd1, hres⟩ := GetRandomWord_returned w d rng fuel res d1 rng1 h1 hret
  obtain ⟨hidx, -⟩ := chooseIndex_returned d h1 fuel rng idx rng1 hc
  refine ⟨idx, hc, hidx, hd1, by rw [hd1], by rw [hd1], hres, ?_⟩
  rw [hres, hd1]
  rfl

/-- Witness of C10 with a failing fetch: the dictionary counted two records
but the dataset now holds one; the generator yields 1, the fetch of ordinal
1 fails with the not-found error, and `lastIndex` is 1 all the same. -/
theorem GetRandomWord_updates_lastIndex_witness :
    GetRandomWord appleWorld fruitDict onesRand 1 =
      .returned (.error (.indexNotFound 1), { fruitDict with lastIndex := 1 },
        { onesRand with pos := 1 }) ∧
    ∃ idx, chooseIndex fruitDict onesRand 1 = .returned (idx, { onesRand with pos := 1 }) ∧
      idx = (onesRand.raw (1 - 1) : Int) % fruitDict.totalWords ∧
      ({ fruitDict with lastIndex := 1 } : Dictionary) = { fruitDict with lastIndex := idx } ∧
      ({ fruitDict with lastIndex := 1 } : Dictionary).lastIndex = idx ∧
      ({ fruitDict with lastIndex := 1 } : Dictionary).totalWords = fruitDict.totalWords ∧
      Except.error (.indexNotFound 1) =
        GetWordByIndex appleWorld { fruitDict with lastIndex := 1 } idx ∧
      Except.error (.indexNotFound 1) = GetWordByIndex appleWorld fruitDict idx :=
  ⟨rfl,
   GetRandomWord_updates_lastIndex appleWorld fruitDict onesRand 1 (.error (.indexNotFound 1))
     { fruitDict with lastIndex := 1 } { onesRand with pos := 1 } (by decide) rfl⟩

/-! ### The fetch by index stops at the target -/

theorem indexLoop_take (index : Int) (items : List (Except String Root)) :
    ∀ currentIndex : Int, currentIndex ≤ index →
      indexLoop index (items.take ((index - currentIndex).toNat + 1)) currentIndex =
        indexLoop index items currentIndex := by
  induction items with
  | nil => intro cur _; simp
  | cons x rest ih =>
    intro cur hle
    cases x with
    | error e => simp [indexLoop]
    | ok item =>
      simp only [List.take_succ_cons, indexLoop]
      by_cases hc : cur = index
      · simp [hc]
      · have hb : (cur == index) = false := by simpa using hc
        simp only [hb, Bool.false_eq_true, if_false]
        have hn : (index - cur).toNat = (index - (cur + 1)).toNat + 1 := by omega
        rw [hn]
        exact ih (cur + 1) (by omega)

theorem indexLoop_first_error (index : Int) (items : List (Except String Root)) :
    ∀ (currentIndex : Int) (j : Nat) (e : String), currentIndex ≤ index →
      j ≤ (index - currentIndex).toNat →
      items[j]? = some (.error e) →
      (∀ k, k < j → ∀ e2, items[k]? ≠ some (.error e2)) →
      indexLoop index items currentIndex = .error (.decodeEntryAt (currentIndex + j) e) := by
  induction items with
  | nil => intro cur j e _ _ hj; simp at hj
  | cons x rest ih =>
    intro cur j e hle hj hget hbefore
    cases j with
    | zero =>
      simp only [List.getElem?_cons_zero, Option.some.injEq] at hget
      subst hget
      simp [indexLoop]
    | succ j1 =>
      cases x with
      | error e0 => exact absurd (by simp) (hbefore 0 (by omega) e0)
      | ok item =>
        have hc : cur ≠ index := by omega
        have hb : (cur == index) = false := by simpa using hc
        simp only [indexLoop, hb, Bool.false_eq_true, if_false]
        simp only [List.getElem?_cons_succ] at hget
        rw [ih (cur + 1) j1 e (by omega) (by omega) hget
          (fun k hk e2 => by
            have := hbefore (k + 1) (by omega) e2
            simpa using this)]
        congr 2
        push_cast
        ring

theorem indexLoop_stream_ends (index : Int) (items : List (Except String Root)) :
    ∀ currentIndex : Int, currentIndex ≤ index →
      items.length ≤ (index - currentIndex).toNat →
      (∀ (k : Nat) (e : String), items[k]? ≠ some (Except.error e)) →
      indexLoop index items currentIndex = .error (.indexNotFound index) := by
  induction items with
  | nil => intro cur _ _ _; simp [indexLoop]
  | cons x rest ih =>
    intro cur hle hlen hno
    cases x with
    | error e0 => exact absurd (by simp) (hno 0 e0)
    | ok item =>
      simp only [List.length_cons] at hlen
      have hc : cur ≠ index := by omega
      have hb : (cur == index) = false := by simpa using hc
      simp only [indexLoop, hb, Bool.false_eq_true, if_false]
      exact ih (cur + 1) (by omega) (by omega)
        (fun k e => by
          have := hno (k + 1) e
          simpa using this)

theorem GetWordByIndex_eq_indexLoop (w : World) (d : Dictionary) (s : Stream) (t : Token)
    (i : Int) (h0 : 0 ≤ i) (hlt : i < d.totalWords)
    (hsrc : getReader w d = .ok s) (hfirst : s.first = .ok t) :
    GetWordByIndex w d i = indexLoop i s.items 0 := by
  have hguard : ¬ (i < 0 ∨ d.totalWords ≤ i) := by omega
  simp [GetWordByIndex, hguard, hsrc, hfirst]

theorem indexLoop_hit (index : Int) (items : List (Except String Root)) :
    ∀ (currentIndex : Int) (r : Root), currentIndex ≤ index →
      items[(index - currentIndex).toNat]? = some (.ok r) →
      (∀ k, k < (index - currentIndex).toNat → ∀ e2, items[k]? ≠ some (Except.error e2)) →
      indexLoop index items currentIndex = .ok r := by
  induction items with
  | nil => intro cur r _ hget; simp at hget
  | cons x rest ih =>
    intro cur r hle hget hbefore
    by_cases hc : cur = index
    · subst hc
      simp only [sub_self, Int.toNat_zero, List.getElem?_cons_zero, Option.some.injEq] at hget
      subst hget
      simp [indexLoop]
    · have hn : (index - cur).toNat = (index - (cur + 1)).toNat + 1 := by omega
      cases x with
      | error e0 => exact absurd (by simp) (hbefore 0 (by omega) e0)
      | ok item =>
        have hb : (cur == index) = false := by simpa using hc
        simp only [indexLoop, hb, Bool.false_eq_true, if_false]
        rw [hn, List.getElem?_cons_succ] at hget
        exact ih (cur + 1) r (by omega) hget
          (fun k hk e2 => by
            have := hbefore (k + 1) (by omega) e2
            simpa using this)

/-- C11: for an in-range ordinal `i`, once the reader is open and the first
token read, `GetWordByIndex` depends only on the first `i + 1` elements of
the stream: its result is that of the loop run on those elements alone, so
over two datasets that agree on elements 0..i it returns the same result,
whatever follows (a later element may fail to decode in one of them).  It
returns element `i` when elements 0..i decode; it fails with the decode
error of the first failing element when an element at a position up to `i`
fails to decode; and it fails with the not-found error when the stream ends
before position `i` without a failing element. -/
theorem GetWordByIndex_stops_at_target (w1 w2 : World) (d : Dictionary)
    (s1 s2 : Stream) (t1 t2 : Token) (i : Int)
    (h0 : 0 ≤ i) (hlt : i < d.totalWords)
    (hsrc1 : getReader w1 d = .ok s1) (hfirst1 : s1.first = .ok t1)
    (hsrc2 : getReader w2 d = .ok s2) (hfirst2 : s2.first = .ok t2)
    (hagree : s1.items.take (i.toNat + 1) = s2.items.take (i.toNat + 1)) :
    GetWordByIndex w1 d i = GetWordByIndex w2 d i ∧
    GetWordByIndex w1 d i = indexLoop i (s1.items.take (i.toNat + 1)) 0 ∧
    (∀ r : Root, s1.items[i.toNat]? = some (.ok r) →
      (∀ k, k < i.toNat → ∀ e2, s1.items[k]? ≠ some (Except.error e2)) →
      GetWordByIndex w1 d i = .ok r) ∧
    (∀ (j : Nat) (e : String), j ≤ i.toNat → s1.items[j]? = some (.error e) →
      (∀ k, k < j → ∀ e2, s1.items[k]? ≠ some (Except.error e2)) →
      GetWordByIndex w1 d i = .error (.decodeEntryAt j e)) ∧
    ((∃ (j : Nat) (e : String), j ≤ i.toNat ∧ s1.items[j]? = some (.error e)) →
      ∃ (j : Nat) (e : String), j ≤ i.toNat ∧ s1.items[j]? = some (.error e) ∧
        GetWordByIndex w1 d i = .error (.decodeEntryAt j e)) ∧
    (s1.items.length ≤ i.toNat →
      (∀ (k : Nat) (e : String), s1.items[k]? ≠ some (Except.error e)) →
      GetWordByIndex w1 d i = .error (.indexNotFound i)) := by
  have e1 := GetWordByIndex_eq_indexLoop w1 d s1 t1 i h0 hlt hsrc1 hfirst1
  have e2 := GetWordByIndex_eq_indexLoop w2 d s2 t2 i h0 hlt hsrc2 hfirst2
  have hn : (i - 0).toNat = i.toNat := by simp
  have k1 := indexLoop_take i s1.items 0 h0
  have k2 := indexLoop_take i s2.items 0 h0
  rw [hn] at k1 k2
  have hfirstErr : ∀ (j : Nat) (e : String), j ≤ i.toNat → s1.items[j]? = some (.error e) →
      (∀ k, k < j → ∀ e2, s1.items[k]? ≠ some (Except.error e2)) →
      GetWordByIndex w1 d i = .error (.decodeEntryAt j e) := by
    intro j e hj hget hbefore
    rw [e1, indexLoop_first_error i s1.items 0 j e h0 (by rw [hn]; exact hj) hget hbefore]
    simp
  refine ⟨?_, ?_, ?_, hfirstErr, ?_, ?_⟩
  · rw [e1, e2, ← k1, ← k2, hagree]
  · rw [e1, k1]
  · intro r hget hbefore
    rw [e1]
    exact indexLoop_hit i s1.items 0 r h0 (by rw [hn]; exact hget)
      (by rw [hn]; exact hbefore)
  · rintro ⟨j, e, hj, hget⟩
    classical
    have hex : ∃ n, ∃ e, s1.items[n]? = some (Except.error e) := ⟨j, e, hget⟩
    obtain ⟨e0, he0⟩ := Nat.find_spec hex
    have hmin : Nat.find hex ≤ j := Nat.find_min' hex ⟨e, hget⟩
    refine ⟨Nat.find hex, e0, by omega, he0, ?_⟩
    apply hfirstErr _ e0 (by omega) he0
    intro k hk e2 hk2
    exact Nat.find_min hex hk ⟨e2, hk2⟩
  · intro hlen hno
    rw [e1]
    exact indexLoop_stream_ends i s1.items 0 h0 (by rw [hn]; exact hlen) hno

/-- Witness of C11: ordinal 0 gives the same result over the two-record
dataset and over the dataset whose second element fails to decode, namely
`apple`; over the latter ordinal 1 fails with the decode error at index 1;
over the one-record dataset ordinal 1 fails with the not-found error. -/
theorem GetWordByIndex_stops_at_target_witness :
    GetWordByIndex fruitWorld fruitDict 0 = GetWordByIndex brokenWorld fruitDict 0 ∧
    GetWordByIndex brokenWorld fruitDict 0 = .ok apple ∧
    GetWordByIndex brokenWorld fruitDict 1 =
      .error (.decodeEntryAt 1 "unexpected end of JSON input") ∧
    GetWordByIndex appleWorld fruitDict 1 = .error (.indexNotFound 1) :=
  ⟨(GetWordByIndex_stops_at_target fruitWorld brokenWorld fruitDict
      fruitWorld.embeddedData brokenWorld.embeddedData (.delim '[') (.delim '[') 0
      (by decide) (by decide) rfl rfl rfl rfl (by decide)).1,
   (GetWordByIndex_stops_at_target brokenWorld brokenWorld fruitDict
      brokenWorld.embeddedData brokenWorld.embeddedData (.delim '[') (.delim '[') 0
      (by decide) (by decide) rfl rfl rfl rfl rfl).2.2.1 apple (by decide)
      (fun k hk => absurd hk (Nat.not_lt_zero k)),
   (GetWordByIndex_stops_at_target brokenWorld brokenWorld fruitDict
      brokenWorld.embeddedData brokenWorld.embeddedData (.delim '[') (.delim '[') 1
      (by decide) (by decide) rfl rfl rfl rfl rfl).2.2.2.1 1 "unexpected end of JSON input"
      (by decide) (by decide)
      (fun k hk e2 => by
        have hk0 : k = 0 := by omega
        subst hk0
        simp [brokenWorld]),
   (GetWordByIndex_stops_at_target appleWorld appleWorld fruitDict
      appleWorld.embeddedData appleWorld.embeddedData (.delim '[') (.delim '[') 1
      (by decide) (by decide) rfl rfl rfl rfl rfl).2.2.2.2.2 (by decide)
      (fun k e => by
        cases k with
        | zero => simp [appleWorld]
        | succ n => simp [appleWorld])⟩

/-! ### User meanings -/

theorem Set_panics_on_null_file (um : UserMeanings)
    (h : NewUserMeanings nullFS "m.json" = .ok um) (k v : GoString) :
    um.meanings = none ∧ um.Set nullFS k v = .panicked := by
  simp [NewUserMeanings, UserMeanings.load, FS.open_, nullFS, decodeInto] at h
  subst h
  exact ⟨rfl, rfl⟩

end Fivebin
